import Mathlib

/-!
Verification development for the context ingestion and semantic retrieval
engine of the AI-Review-Analyzer repository.

Shallow embedding conventions:
* JavaScript strings are modelled as `List Char`; short identifiers and
  error messages are Lean `String`s.
* JavaScript numbers occurring in the similarity code are modelled as exact
  rationals (`ℚ`); `Math.sqrt` is an abstract parameter `msqrt : ℚ → ℚ`
  since no claim depends on the numeric value of a square root.
* The nondeterministic id generator (`Date.now()`/`Math.random()`) and the
  timestamp (`new Date().toISOString()`) are abstract parameters.
* The `while` loop of `splitTextIntoChunks` is embedded with an explicit
  fuel parameter; `none` means the fuel was exhausted before the loop
  finished, and divergence is expressed as returning `none` for every fuel.
* Code that throws is modelled with `Except`.
-/

/-- JavaScript `text.lastIndexOf(pat, pos)`: the largest index `i ≤ pos` at
which `pat` occurs in `text` (the occurrence may extend past `pos`), or `-1`
if there is none. -/
def jsLastIndexOf (text pat : List Char) (pos : Nat) : Int :=
  match ((List.range (pos + 1)).filter (fun i => pat.isPrefixOf (text.drop i))).getLast? with
  | some i => (i : Int)
  | none => -1

/-- End index of the chunk starting at `s`: `endIndex = s + chunkSize`, then
adjusted to the preferred natural break point exactly as in
`splitTextIntoChunks` (paragraph break within 200 before the boundary, else
sentence break within 100, else any word break after the start). -/
def chunkEndIndex (text : List Char) (cs : Nat) (s : Nat) : Nat :=
  let e0 := s + cs
  if e0 < text.length then
    let pb := jsLastIndexOf text [Char.ofNat 10, Char.ofNat 10] e0
    let sb := jsLastIndexOf text ['.', ' '] e0
    let wb := jsLastIndexOf text [' '] e0
    if pb > (s : Int) ∧ pb > (e0 : Int) - 200 then (pb + 2).toNat
    else if sb > (s : Int) ∧ sb > (e0 : Int) - 100 then (sb + 2).toNat
    else if wb > (s : Int) then (wb + 1).toNat
    else e0
  else e0

/-- Start index of the next chunk: `startIndex = endIndex - overlap`, forced
to `endIndex` when the computed value is `≤ 0` or equals `endIndex`
(the literal guard `startIndex <= 0 || endIndex === startIndex`). -/
def nextStart (ov : Nat) (e : Nat) : Nat :=
  let ns : Int := (e : Int) - (ov : Int)
  if ns ≤ 0 ∨ ns = (e : Int) then e else ns.toNat

/-- The `while (startIndex < text.length)` loop of `splitTextIntoChunks`,
with fuel. Each iteration pushes `text.slice(startIndex, endIndex)` and
advances to `nextStart`. -/
def chunkLoop (text : List Char) (cs ov : Nat) : Nat → Nat → Option (List (List Char))
  | 0, _ => none
  | fuel + 1, s =>
    if s < text.length then
      match chunkLoop text cs ov fuel (nextStart ov (chunkEndIndex text cs s)) with
      | none => none
      | some rest => some ((text.drop s).take (chunkEndIndex text cs s - s) :: rest)
    else some []

/-- Model of `splitTextIntoChunks(text, chunkSize, overlap)`: returns `[text]` when
`!text || text.length <= chunkSize`, else runs the chunking loop. -/
def splitTextIntoChunksFuel (fuel : Nat) (text : List Char) (cs ov : Nat) : Option (List (List Char)) :=
  if text.length ≤ cs then some [text] else chunkLoop text cs ov fuel 0

/-- The chunking loop runs forever on this input: no amount of fuel makes it
return. -/
def splitTextIntoChunksDiverges (text : List Char) (cs ov : Nat) : Prop :=
  ∀ fuel, splitTextIntoChunksFuel fuel text cs ov = none

/-- Model of `estimateTokenCount(text)`: 0 for a falsy (empty) string, else
`Math.ceil(text.length / 4)`. -/
def estimateTokenCount (text : List Char) : Nat :=
  if text.isEmpty then 0 else (Int.ceil ((text.length : ℚ) / 4)).toNat

/-- JavaScript `String.prototype.trim`. -/
def jsTrim (s : List Char) : List Char :=
  ((s.dropWhile Char.isWhitespace).reverse.dropWhile Char.isWhitespace).reverse

/-- Model of `createChunkTitle(chunk, index, filename)`: first line of the chunk
(trimmed, truncated to 50 characters with an ellipsis) appended to
`filename (chunk index+1) - `. -/
def createChunkTitle (chunk : List Char) (index : Nat) (filename : String) : String :=
  let firstLine := jsTrim (chunk.takeWhile (fun c => c ≠ Char.ofNat 10))
  let preview := if firstLine.length > 50 then firstLine.take 50 ++ "...".toList else firstLine
  filename ++ " (chunk " ++ Nat.repr (index + 1) ++ ") - " ++ String.mk preview

deriving instance DecidableEq for Except

/-- A stored context record (`ContextItem` in `db.ts` / the API routes).
The transient `similarity` field attached at query time is modelled by
`RankedItem` below. -/
structure ContextItem where
  id : String
  source : String
  content : List Char
  title : Option String
  url : Option String
  filepath : Option String
  embedding : Option (List ℚ)
  createdAt : String
deriving DecidableEq, Repr

/-- A context item together with the transient `similarity` score that
`findSimilarContexts` attaches (`{ ...item, similarity }`). -/
structure RankedItem where
  item : ContextItem
  similarity : ℚ
deriving DecidableEq, Repr

/-- Dot product loop of `cosineSimilarity` (runs over the common length). -/
def dotProduct (vA vB : List ℚ) : ℚ :=
  (List.zipWith (fun a b => a * b) vA vB).sum

/-- Accumulated `normA` / `normB` of `cosineSimilarity`: the sum of squares
(before the square root is taken). -/
def sumSquares (v : List ℚ) : ℚ :=
  (v.map (fun a => a * a)).sum

/-- Model of `cosineSimilarity(vectorA, vectorB)`: throws when the lengths differ,
returns 0 when either accumulated norm is 0, else
`dot / (Math.sqrt(normA) * Math.sqrt(normB))` with `Math.sqrt` abstracted
as `msqrt`. -/
def cosineSimilarity (msqrt : ℚ → ℚ) (vA vB : List ℚ) : Except String ℚ :=
  if vA.length ≠ vB.length then Except.error "Vectors must have the same length"
  else if sumSquares vA = 0 ∨ sumSquares vB = 0 then Except.ok 0
  else Except.ok (dotProduct vA vB / (msqrt (sumSquares vA) * msqrt (sumSquares vB)))

/-- The retrieval filter `item.embedding && item.embedding.length > 0`. -/
def qualifies (it : ContextItem) : Bool :=
  match it.embedding with
  | none => false
  | some e => decide (0 < e.length)

/-- The `.map` of `findSimilarContexts` that attaches a similarity to every
qualifying item; the first mismatched item makes the whole call throw. -/
def computeSims (msqrt : ℚ → ℚ) (q : List ℚ) : List ContextItem → Except String (List RankedItem)
  | [] => Except.ok []
  | it :: rest =>
    match cosineSimilarity msqrt q (it.embedding.getD []) with
    | Except.error e => Except.error e
    | Except.ok s =>
      match computeSims msqrt q rest with
      | Except.error e => Except.error e
      | Except.ok rs => Except.ok (⟨it, s⟩ :: rs)

/-- Ordering used by `.sort((a, b) => b.similarity - a.similarity)`:
`a` may precede `b` exactly when `a.similarity ≥ b.similarity`. -/
def simGE (a b : RankedItem) : Prop := b.similarity ≤ a.similarity

instance : DecidableRel simGE :=
  fun a b => inferInstanceAs (Decidable (b.similarity ≤ a.similarity))

instance : IsTotal RankedItem simGE := ⟨fun a b => le_total b.similarity a.similarity⟩

instance : IsTrans RankedItem simGE := ⟨fun _ _ _ h h2 => le_trans h2 h⟩

/-- JavaScript `array.slice(0, e)` (the `e < 0` case counts from the end and
clamps at 0; the `e ≥ 0` case clamps at the length). -/
def jsSliceTo {α : Type} (l : List α) (e : Int) : List α :=
  if e < 0 then l.take (l.length - (-e).toNat) else l.take e.toNat

/-- Model of `findSimilarContexts(queryEmbedding, limit)`: `none` models an absent
`"context"` key. Qualifying records get similarities (a length mismatch
throws), are stably sorted by descending similarity (ECMAScript
`Array.prototype.sort` is stable; `List.insertionSort simGE` computes
exactly the stable descending-by-similarity permutation) and the first
`limit` are returned via `slice(0, limit)`. -/
def findSimilarContexts (msqrt : ℚ → ℚ) (store : Option (List ContextItem)) (q : List ℚ) (limit : Int) : Except String (List RankedItem) :=
  match store with
  | none => Except.ok []
  | some contexts =>
    if contexts.isEmpty then Except.ok []
    else
      match computeSims msqrt q (contexts.filter qualifies) with
      | Except.error e => Except.error e
      | Except.ok ws => Except.ok (jsSliceTo (List.insertionSort simGE ws) limit)

/-- The similarity value `cosineSimilarity` produces once the length guard
has passed; used to state what a successful retrieval returns. -/
def simVal (msqrt : ℚ → ℚ) (q v : List ℚ) : ℚ :=
  if sumSquares q = 0 ∨ sumSquares v = 0 then 0
  else dotProduct q v / (msqrt (sumSquares q) * msqrt (sumSquares v))

/-- The ranked (still unsorted) qualifying records of a store for a query. -/
def rankedOf (msqrt : ℚ → ℚ) (store : List ContextItem) (q : List ℚ) : List RankedItem :=
  (store.filter qualifies).map (fun it => ⟨it, simVal msqrt q (it.embedding.getD [])⟩)

/-- Per-chunk result object pushed by the ingestion `Promise.all` maps: a
success carries a title, a failure carries the error message. -/
structure ChunkResult where
  chunkIndex : Nat
  title : Option String
  error : Option String
  charCount : Nat
  tokenCount : Nat
deriving DecidableEq, Repr

/-- JavaScript truthiness of the optional `error` field used by the
`!chunk.error` filters: an absent field and the empty string are falsy. -/
def jsFalsyOptStr : Option String → Bool
  | none => true
  | some s => decide (s = "")

/-- Body of the per-chunk `Promise.all` callback shared by both ingestion
routes: derive a chunk title, request an embedding (the oracle `embed` takes
the chunk index and text and yields the resulting vector or the message the
route stores after its `error instanceof Error` normalisation), and on
success build the `ContextItem` appended to the store. -/
def processChunk (embed : Nat → List Char → Except String (List ℚ)) (mkId : Nat → String) (now : String) (src : String) (urlOpt pathOpt : Option String) (nChunks : Nat) (baseTitle : String) (idx : Nat) (chunk : List Char) : ChunkResult × Option ContextItem :=
  let chunkTitle := if nChunks > 1 then createChunkTitle chunk idx baseTitle else baseTitle
  match embed idx chunk with
  | Except.ok emb =>
    (⟨idx, some chunkTitle, none, chunk.length, estimateTokenCount chunk⟩,
      some ⟨mkId idx, src, chunk, some chunkTitle, urlOpt, pathOpt, some emb, now⟩)
  | Except.error msg =>
    (⟨idx, none, some msg, chunk.length, estimateTokenCount chunk⟩, none)

/-- Processes the chunks starting at index `idx`, collecting the per-chunk
results and the successfully embedded context items in chunk order. -/
def embedChunksAux (embed : Nat → List Char → Except String (List ℚ)) (mkId : Nat → String) (now : String) (src : String) (urlOpt pathOpt : Option String) (nChunks : Nat) (baseTitle : String) : Nat → List (List Char) → List ChunkResult × List ContextItem
  | _, [] => ([], [])
  | idx, c :: cs =>
    let pr := processChunk embed mkId now src urlOpt pathOpt nChunks baseTitle idx c
    let rest := embedChunksAux embed mkId now src urlOpt pathOpt nChunks baseTitle (idx + 1) cs
    (pr.1 :: rest.1, match pr.2 with
      | some it => it :: rest.2
      | none => rest.2)

/-- The whole chunk-embedding batch (`textChunks.map(async (chunk, index) => ...)`
awaited together; the model uses chunk order, which is the order of the
`chunkResults` array, and appends exactly the successful items). -/
def embedChunks (embed : Nat → List Char → Except String (List ℚ)) (mkId : Nat → String) (now : String) (src : String) (urlOpt pathOpt : Option String) (baseTitle : String) (chunks : List (List Char)) : List ChunkResult × List ContextItem :=
  embedChunksAux embed mkId now src urlOpt pathOpt chunks.length baseTitle 0 chunks

/-- Sentinel prefix produced by the PDF extractor on a parse error. -/
def sentinelPdfParse : List Char := "[Error parsing PDF:".toList

/-- Sentinel prefix produced by the PDF extractor on a read error. -/
def sentinelPdfRead : List Char := "[Error reading PDF file:".toList

/-- Per-file report returned by the upload route: `error` with
`totalChunks = 0` on short-circuit, else the chunk lists and counts. -/
structure FileReport where
  error : Option String
  totalChunks : Nat
  successfulChunks : Nat
  failedChunks : List ChunkResult
  chunks : List ChunkResult
deriving DecidableEq, Repr

/-- Handling by the upload route of one file after text extraction
(`src/pages/api/upload.ts`): empty or whitespace-only content and the two
recognized PDF sentinel prefixes short-circuit to a zero-chunk error report;
otherwise the content is chunked when the token estimate exceeds 8000 and the
chunks are embedded (each success is appended to the store by the chunk
callback, so the new store is the old one plus the successful items). The
third component lists the chunk texts for which an embedding was requested.
`none` means the chunking loop ran out of fuel. -/
def processUploadContent (embed : Nat → List Char → Except String (List ℚ)) (mkId : Nat → String) (now : String) (isPdf : Bool) (filename filepath : String) (fuel : Nat) (content : List Char) (store : List ContextItem) : Option (FileReport × List ContextItem × List (List Char)) :=
  if content.isEmpty ∨ (jsTrim content).isEmpty then
    some (⟨some (if isPdf then "This PDF might be image-only or scanned. No text content could be extracted." else "Could not extract text content from this file"), 0, 0, [], []⟩, store, [])
  else if sentinelPdfParse.isPrefixOf content ∨ sentinelPdfRead.isPrefixOf content then
    some (⟨some (String.mk content), 0, 0, [], []⟩, store, [])
  else
    match (if 8000 < estimateTokenCount content then splitTextIntoChunksFuel fuel content 4000 200 else some [content]) with
    | none => none
    | some textChunks =>
      let pr := embedChunks embed mkId now "file" none (some filepath) filename textChunks
      some (⟨none, textChunks.length,
        (pr.1.filter (fun r => jsFalsyOptStr r.error)).length,
        pr.1.filter (fun r => !jsFalsyOptStr r.error),
        pr.1.filter (fun r => jsFalsyOptStr r.error)⟩, store ++ pr.2, textChunks)

/-- Summary object returned by the URL-scrape route. -/
structure UrlReport where
  contentLength : Nat
  totalChunks : Nat
  successfulChunks : Nat
  failedChunks : Nat
deriving DecidableEq, Repr

/-- Handling by the URL-scrape route of scraped content (`api` route in the
scrape handler): note there is no empty-content or sentinel check — the
content is token-estimated, possibly chunked, and every chunk (including an
empty one) is sent for embedding; successful items are appended after the
batch. The third component lists the chunk texts for which an embedding was
requested. -/
def processUrlContent (embed : Nat → List Char → Except String (List ℚ)) (mkId : Nat → String) (now : String) (url pageTitle : String) (fuel : Nat) (content : List Char) (store : List ContextItem) : Option (UrlReport × List ContextItem × List (List Char)) :=
  match (if 8000 < estimateTokenCount content then splitTextIntoChunksFuel fuel content 4000 200 else some [content]) with
  | none => none
  | some textChunks =>
    let baseTitle := if pageTitle = "" then url else pageTitle
    let pr := embedChunks embed mkId now "url" (some url) none baseTitle textChunks
    some (⟨content.length, textChunks.length,
      (pr.1.filter (fun r => jsFalsyOptStr r.error)).length,
      (pr.1.filter (fun r => !jsFalsyOptStr r.error)).length⟩, store ++ pr.2, textChunks)

/-! ### Helper lemmas about the chunker -/

lemma jsLastIndexOf_le (text pat : List Char) (pos : Nat) :
    jsLastIndexOf text pat pos ≤ (pos : Int) := by
  unfold jsLastIndexOf
  cases h : ((List.range (pos + 1)).filter (fun i => pat.isPrefixOf (text.drop i))).getLast? with
  | none => simp only [h]; omega
  | some i =>
    have hi : i ∈ (List.range (pos + 1)).filter (fun i => pat.isPrefixOf (text.drop i)) := by
      obtain ⟨hne, hEq⟩ := List.mem_getLast?_eq_getLast (show i ∈ _ from h)
      rw [hEq]
      exact List.getLast_mem hne
    have hlt := List.mem_range.mp (List.mem_filter.mp hi).1
    simp only [h]
    omega

lemma le_chunkEndIndex (text : List Char) (cs s : Nat) : s ≤ chunkEndIndex text cs s := by
  simp only [chunkEndIndex]
  split_ifs <;> omega

lemma chunkEndIndex_le (text : List Char) (cs s : Nat) :
    chunkEndIndex text cs s ≤ s + cs + 2 := by
  have hp := jsLastIndexOf_le text [Char.ofNat 10, Char.ofNat 10] (s + cs)
  have hsb := jsLastIndexOf_le text ['.', ' '] (s + cs)
  have hw := jsLastIndexOf_le text [' '] (s + cs)
  simp only [chunkEndIndex]
  split_ifs <;> omega

lemma nextStart_le (ov e : Nat) : nextStart ov e ≤ e := by
  simp only [nextStart]
  split_ifs <;> omega

/-- A two-state cycle of the loop below the end of the text means the loop
never terminates, whatever the fuel. -/
lemma chunkLoop_cycle_none (text : List Char) (cs ov s₁ s₂ : Nat)
    (h₁ : s₁ < text.length) (h₂ : s₂ < text.length)
    (hs₁ : nextStart ov (chunkEndIndex text cs s₁) = s₂)
    (hs₂ : nextStart ov (chunkEndIndex text cs s₂) = s₁) :
    ∀ fuel, chunkLoop text cs ov fuel s₁ = none ∧ chunkLoop text cs ov fuel s₂ = none := by
  intro fuel
  induction fuel with
  | zero => exact ⟨rfl, rfl⟩
  | succ n ih =>
    refine ⟨?_, ?_⟩
    · show chunkLoop text cs ov (n + 1) s₁ = none
      simp only [chunkLoop, if_pos h₁, hs₁, ih.2]
    · show chunkLoop text cs ov (n + 1) s₂ = none
      simp only [chunkLoop, if_pos h₂, hs₂, ih.1]

/-- Divergence of `splitTextIntoChunks` from a reachable two-state cycle. -/
lemma splitDiverges_of_cycle (text : List Char) (cs ov s₁ s₂ : Nat)
    (hlen : ¬ text.length ≤ cs)
    (hstep0 : nextStart ov (chunkEndIndex text cs 0) = s₁)
    (h₁ : s₁ < text.length) (h₂ : s₂ < text.length)
    (hs₁ : nextStart ov (chunkEndIndex text cs s₁) = s₂)
    (hs₂ : nextStart ov (chunkEndIndex text cs s₂) = s₁) :
    splitTextIntoChunksDiverges text cs ov := by
  intro fuel
  have key := chunkLoop_cycle_none text cs ov s₁ s₂ h₁ h₂ hs₁ hs₂
  unfold splitTextIntoChunksFuel
  rw [if_neg hlen]
  cases fuel with
  | zero => rfl
  | succ n =>
    have h0 : 0 < text.length := by omega
    simp only [chunkLoop, if_pos h0, hstep0, (key n).1]

/-! ### Claim C2 -/

/-- Claim C2: for every input text and every choice of `maxChunkChars > 0`
and `overlapChars ≥ 0`, `splitTextIntoChunks` terminates because the
progress guard forces the next start index past the current one. This is
FALSE of the code: the guard only checks `startIndex <= 0` and
`endIndex === startIndex`, so on 20 non-break characters with
`chunkSize = 5` and `overlap = 10` the loop revisits start index 5 forever
(5 → 10 → 5 → ...). The theorem certifies the divergence at that failing
input: no fuel bound makes the loop return. -/
theorem c2_theorem : splitTextIntoChunksDiverges (List.replicate 20 'a') 5 10 :=
  splitDiverges_of_cycle (List.replicate 20 'a') 5 10 5 10 (by decide) (by decide)
    (by decide) (by decide) (by decide) (by decide)

/-! ### Claim C8 -/

/-- Claim C8: `estimateTokenCount(text)` equals `ceil(length(text) / 4)`,
is a non-negative integer (it is a `Nat` in the model), is 0 for empty
input, yields 1000 on 4000 characters and 0 on the empty string.
Confirmed. -/
theorem c8_theorem :
    (∀ t : List Char, (estimateTokenCount t : ℤ) = Int.ceil ((t.length : ℚ) / 4)) ∧
    estimateTokenCount (List.replicate 4000 'a') = 1000 ∧
    estimateTokenCount [] = 0 := by
  refine ⟨?_, ?_, rfl⟩
  · intro t
    unfold estimateTokenCount
    cases t with
    | nil => simp
    | cons a t =>
      rw [if_neg (by simp)]
      exact Int.toNat_of_nonneg (Int.ceil_nonneg (by positivity))
  · unfold estimateTokenCount
    rw [if_neg (by simp)]
    norm_num
    rfl

/-! ### Claim C9 -/

/-- Claim C9: for equal-length vectors, a zero norm on either side makes
`cosineSimilarity` return 0 without raising: the division is guarded and
unreachable. Confirmed (over exact rationals a zero sum of squares is
exactly a zero-norm vector). -/
theorem c9_theorem (msqrt : ℚ → ℚ) (vA vB : List ℚ)
    (hlen : vA.length = vB.length)
    (hz : sumSquares vA = 0 ∨ sumSquares vB = 0) :
    cosineSimilarity msqrt vA vB = Except.ok 0 := by
  unfold cosineSimilarity
  rw [if_neg (by omega), if_pos hz]

/-- Witness for C9 at `A = [0, 0]`, `B = [3, 4]`. -/
theorem c9_witness :
    (([0, 0] : List ℚ).length = ([3, 4] : List ℚ).length ∧
      (sumSquares [0, 0] = 0 ∨ sumSquares [(3 : ℚ), 4] = 0)) ∧
    cosineSimilarity (fun x => x) [0, 0] [3, 4] = Except.ok 0 :=
  ⟨⟨by decide, Or.inl (by norm_num [sumSquares])⟩,
    c9_theorem (fun x => x) [0, 0] [3, 4] (by decide) (Or.inl (by norm_num [sumSquares]))⟩

/-! ### Claim C1 -/

/-- A sample stored record with the given embedding, used for concrete
instances of the retrieval claims. -/
def itemOfEmb (e : List ℚ) : ContextItem :=
  ⟨"id0", "file", [], none, none, none, some e, "t0"⟩

lemma cosineSimilarity_ok_of_length_eq (msqrt : ℚ → ℚ) (vA vB : List ℚ)
    (h : vA.length = vB.length) :
    cosineSimilarity msqrt vA vB = Except.ok (simVal msqrt vA vB) := by
  unfold cosineSimilarity simVal
  rw [if_neg (by omega)]
  split_ifs <;> rfl

lemma computeSims_error_of_mismatch (msqrt : ℚ → ℚ) (q : List ℚ) :
    ∀ l : List ContextItem, (∃ it ∈ l, (it.embedding.getD []).length ≠ q.length) →
      computeSims msqrt q l = Except.error "Vectors must have the same length" := by
  intro l
  induction l with
  | nil => rintro ⟨it, hmem, _⟩; cases hmem
  | cons a l ih =>
    rintro ⟨it, hmem, hne⟩
    unfold computeSims
    by_cases ha : (a.embedding.getD []).length ≠ q.length
    · rw [show cosineSimilarity msqrt q (a.embedding.getD []) =
          Except.error "Vectors must have the same length" by
        unfold cosineSimilarity
        rw [if_pos (by omega)]]
    · rw [cosineSimilarity_ok_of_length_eq msqrt q (a.embedding.getD []) (by omega)]
      have hrest : ∃ it ∈ l, (it.embedding.getD []).length ≠ q.length := by
        rcases List.mem_cons.mp hmem with h | h
        · exact absurd hne (by rw [h]; exact ha)
        · exact ⟨it, h, hne⟩
      rw [ih hrest]

/-- Claim C1 as stated is FALSE: a stored record whose non-empty embedding
has a different dimensionality than the query makes `findSimilarContexts`
raise a call-level error instead of being excluded from ranking. Concrete
counterexample: a store holding one record with 2-dimensional embedding and
a 1-dimensional query — the call returns the thrown
"Vectors must have the same length" error rather than a ranking. -/
theorem c1_counterexample :
    findSimilarContexts (fun x => x) (some [itemOfEmb [1, 2]]) [1] 3 =
      Except.error "Vectors must have the same length" := by
  have h : computeSims (fun x : ℚ => x) [1] ([itemOfEmb [1, 2]].filter qualifies) =
      Except.error "Vectors must have the same length" := by
    apply computeSims_error_of_mismatch
    exact ⟨itemOfEmb [1, 2], by decide, by decide⟩
  simp only [findSimilarContexts, h]
  rfl

/-- Claim C1 amended: whenever the embedding of at least one qualifying
record has a dimensionality different from that of the query, `findSimilarContexts`
raises the call-level error "Vectors must have the same length" — the
mismatched comparison is not isolated, because `cosineSimilarity` throws
and nothing catches it. -/
theorem c1_theorem (msqrt : ℚ → ℚ) (store : List ContextItem) (q : List ℚ) (limit : Int)
    (h : ∃ it ∈ store.filter qualifies, (it.embedding.getD []).length ≠ q.length) :
    findSimilarContexts msqrt (some store) q limit =
      Except.error "Vectors must have the same length" := by
  have hne : store.isEmpty = false := by
    obtain ⟨it, hmem, _⟩ := h
    have := List.mem_of_mem_filter hmem
    cases store with
    | nil => cases this
    | cons a l => rfl
  simp only [findSimilarContexts]
  rw [if_neg (by simp [hne]), computeSims_error_of_mismatch msqrt q (store.filter qualifies) h]

/-- Witness for the amended C1 on a two-record store whose second record
mismatches the query dimensionality. -/
theorem c1_witness :
    (∃ it ∈ [itemOfEmb [5], itemOfEmb [1, 2, 3]].filter qualifies,
      (it.embedding.getD []).length ≠ ([7] : List ℚ).length) ∧
    findSimilarContexts (fun x => x) (some [itemOfEmb [5], itemOfEmb [1, 2, 3]]) [7] 5 =
      Except.error "Vectors must have the same length" :=
  ⟨⟨itemOfEmb [1, 2, 3], by decide, by decide⟩,
    c1_theorem (fun x => x) [itemOfEmb [5], itemOfEmb [1, 2, 3]] [7] 5
      ⟨itemOfEmb [1, 2, 3], by decide, by decide⟩⟩

/-! ### Claim C6 -/

lemma chunkLoop_length_bound (text : List Char) (cs ov : Nat) :
    ∀ fuel s chunks, chunkLoop text cs ov fuel s = some chunks →
      ∀ c ∈ chunks, c.length ≤ cs + 2 := by
  intro fuel
  induction fuel with
  | zero => intro s chunks h; cases h
  | succ n ih =>
    intro s chunks h
    rw [chunkLoop] at h
    by_cases hs : s < text.length
    · rw [if_pos hs] at h
      cases hrec : chunkLoop text cs ov n (nextStart ov (chunkEndIndex text cs s)) with
      | none => rw [hrec] at h; cases h
      | some rest =>
        rw [hrec] at h
        injection h with h
        subst h
        intro c hc
        rcases List.mem_cons.mp hc with h | h
        · subst h
          have h1 : ((text.drop s).take (chunkEndIndex text cs s - s)).length ≤
              chunkEndIndex text cs s - s := by
            rw [List.length_take]
            omega
          have h2 := chunkEndIndex_le text cs s
          omega
        · exact ih (nextStart ov (chunkEndIndex text cs s)) rest hrec c h
    · rw [if_neg hs] at h
      injection h with h
      subst h
      intro c hc
      cases hc

/-- Claim C6 as stated is FALSE for `overlapChars < 2`: a natural-break
adjustment can push the end of a chunk up to 2 characters past the target
boundary, so a non-last chunk can exceed `maxChunkChars + overlapChars`.
Concrete counterexample with `maxChunkChars = 4`, `overlapChars = 0`: the
text `"abc\n\ncdefgh"` yields three chunks whose first chunk (not the last)
has 5 > 4 + 0 characters. -/
theorem c6_counterexample :
    splitTextIntoChunksFuel 10 ("abc\n\ncdefgh".toList) 4 0 =
      some ["abc\n\n".toList, "cdef".toList, "gh".toList] ∧
    ("abc\n\n".toList).length = 5 ∧ 5 > 4 + 0 := by
  refine ⟨by decide, by decide, by decide⟩

/-- Claim C6 amended: every chunk (the last included) has length at most
`maxChunkChars + 2` — hence at most `maxChunkChars + overlapChars` whenever
`overlapChars ≥ 2`, which covers the default parameters — and a text of at
most `maxChunkChars` characters (the empty text included) yields exactly the
single-element sequence holding the whole text. -/
theorem c6_theorem :
    (∀ fuel text cs ov chunks, splitTextIntoChunksFuel fuel text cs ov = some chunks →
      ∀ c ∈ chunks, c.length ≤ cs + 2) ∧
    (∀ fuel text cs ov, text.length ≤ cs →
      splitTextIntoChunksFuel fuel text cs ov = some [text]) := by
  constructor
  · intro fuel text cs ov chunks h c hc
    unfold splitTextIntoChunksFuel at h
    by_cases hlen : text.length ≤ cs
    · rw [if_pos hlen] at h
      injection h with h
      subst h
      rcases List.mem_singleton.mp hc with rfl
      omega
    · rw [if_neg hlen] at h
      exact chunkLoop_length_bound text cs ov fuel 0 chunks h c hc
  · intro fuel text cs ov hlen
    unfold splitTextIntoChunksFuel
    rw [if_pos hlen]

/-- Witness for the amended C6: both conjuncts instantiated on concrete
inputs (the chunking of `"abcdefghij"` with size 3, overlap 1, and the
single-chunk identity on `"ab"` with size 5). -/
theorem c6_witness :
    (splitTextIntoChunksFuel 10 ("abcdefghij".toList) 3 1 =
        some ["abc".toList, "cde".toList, "efg".toList, "ghi".toList, "ij".toList] ∧
      ∀ c ∈ ["abc".toList, "cde".toList, "efg".toList, "ghi".toList, "ij".toList],
        c.length ≤ 3 + 2) ∧
    (("ab".toList).length ≤ 5 ∧ splitTextIntoChunksFuel 3 ("ab".toList) 5 0 = some ["ab".toList]) :=
  ⟨⟨by decide, c6_theorem.1 10 ("abcdefghij".toList) 3 1 _ (by decide)⟩,
    ⟨by decide, c6_theorem.2 3 ("ab".toList) 5 0 (by decide)⟩⟩

/-! ### Claim C3 -/

/-- Claim C3 amended (file-upload path): when the extracted text is empty
(or whitespace-only, which the route also treats as empty) or starts with
one of the two recognized PDF extraction-failure sentinels, the upload route
returns a report with an error reason and zero chunks, leaves the store
unchanged, and requests no embedding. -/
theorem c3_theorem (embed : Nat → List Char → Except String (List ℚ))
    (mkId : Nat → String) (now : String) (isPdf : Bool) (filename filepath : String)
    (fuel : Nat) (content : List Char) (store : List ContextItem)
    (h : content.isEmpty ∨ (jsTrim content).isEmpty ∨
      sentinelPdfParse.isPrefixOf content ∨ sentinelPdfRead.isPrefixOf content) :
    ∃ report, processUploadContent embed mkId now isPdf filename filepath fuel content store =
        some (report, store, []) ∧
      report.error.isSome = true ∧ report.totalChunks = 0 ∧
      report.successfulChunks = 0 ∧ report.chunks = [] ∧ report.failedChunks = [] := by
  unfold processUploadContent
  by_cases hc : content.isEmpty = true ∨ (jsTrim content).isEmpty = true
  · rw [if_pos hc]
    exact ⟨_, rfl, rfl, rfl, rfl, rfl, rfl⟩
  · rw [if_neg hc]
    have hsent : sentinelPdfParse.isPrefixOf content = true ∨
        sentinelPdfRead.isPrefixOf content = true := by
      rcases h with h | h | h | h
      · exact absurd (Or.inl h) hc
      · exact absurd (Or.inr h) hc
      · exact Or.inl h
      · exact Or.inr h
    rw [if_pos hsent]
    exact ⟨_, rfl, rfl, rfl, rfl, rfl, rfl⟩

/-- Witness for the amended C3: a PDF-parse sentinel text short-circuits the
upload route. -/
theorem c3_witness :
    (("[Error parsing PDF: boom]".toList).isEmpty ∨
      (jsTrim ("[Error parsing PDF: boom]".toList)).isEmpty ∨
      sentinelPdfParse.isPrefixOf ("[Error parsing PDF: boom]".toList) ∨
      sentinelPdfRead.isPrefixOf ("[Error parsing PDF: boom]".toList)) ∧
    ∃ report, processUploadContent (fun _ _ => Except.ok [1]) (fun _ => "id1") "now1" true
        "f.pdf" "/tmp/f.pdf" 3 ("[Error parsing PDF: boom]".toList) [] =
        some (report, [], []) ∧
      report.error.isSome = true ∧ report.totalChunks = 0 ∧
      report.successfulChunks = 0 ∧ report.chunks = [] ∧ report.failedChunks = [] :=
  ⟨by decide,
    c3_theorem (fun _ _ => Except.ok [1]) (fun _ => "id1") "now1" true "f.pdf" "/tmp/f.pdf" 3
      ("[Error parsing PDF: boom]".toList) [] (by decide)⟩

/-- Claim C3 as stated is FALSE on the URL-scrape ingestion path: that route
has no empty-text or sentinel check at all. On empty scraped content it
reports one chunk (not zero), sends the empty text to the embedding
provider, and appends the resulting record to the store. -/
theorem c3_counterexample :
    processUrlContent (fun _ _ => Except.ok [1]) (fun _ => "idU") "nowU" "http://u" "ttl" 1 [] [] =
      some (⟨0, 1, 1, 0⟩,
        [⟨"idU", "url", [], some "ttl", some "http://u", none, some [1], "nowU"⟩],
        [[]]) := by
  rfl

/-! ### Claim C5 -/

/-- Loop invariant for chunk reconstruction: a terminating run of the
chunking loop started at `s`, with the text already reconstructed up to
position `m ≥ s`, admits per-chunk drop amounts (each bounded by the length
of its chunk, the first being `min (m - s)` of the first chunk length) whose
removal makes the concatenation equal to the remaining text. -/
lemma chunkLoop_reconstruct (text : List Char) (cs ov : Nat) :
    ∀ fuel s m chunks, chunkLoop text cs ov fuel s = some chunks →
      s < text.length → s ≤ m → m ≤ text.length →
      ∃ ks : List Nat, ks.length = chunks.length ∧
        (∀ p ∈ ks.zip chunks, p.1 ≤ p.2.length) ∧
        (((ks.zip chunks).map (fun p => p.2.drop p.1)).flatten = text.drop m) ∧
        ks.head? = chunks.head?.map (fun c => min (m - s) c.length) := by
  intro fuel
  induction fuel with
  | zero => intro s m chunks h; cases h
  | succ n ih =>
    intro s m chunks h hs hsm hm
    rw [chunkLoop, if_pos hs] at h
    cases hrec : chunkLoop text cs ov n (nextStart ov (chunkEndIndex text cs s)) with
    | none => rw [hrec] at h; cases h
    | some rest =>
      rw [hrec] at h
      injection h with h
      subst h
      have hse : s ≤ chunkEndIndex text cs s := le_chunkEndIndex text cs s
      have hs'e : nextStart ov (chunkEndIndex text cs s) ≤ chunkEndIndex text cs s :=
        nextStart_le ov (chunkEndIndex text cs s)
      have hclen : ((text.drop s).take (chunkEndIndex text cs s - s)).length =
          min (chunkEndIndex text cs s) text.length - s := by
        rw [List.length_take, List.length_drop]
        omega
      by_cases hlt : nextStart ov (chunkEndIndex text cs s) < text.length
      · obtain ⟨ks, hk1, hk2, hk3, _⟩ :=
          ih (nextStart ov (chunkEndIndex text cs s))
            (max m (min (chunkEndIndex text cs s) text.length)) rest hrec hlt
            (by omega) (by omega)
        refine ⟨min (m - s) ((text.drop s).take (chunkEndIndex text cs s - s)).length :: ks,
          by simp [hk1], ?_, ?_, by simp⟩
        · intro p hp
          rw [List.zip_cons_cons] at hp
          rcases List.mem_cons.mp hp with hp | hp
          · subst hp
            exact min_le_right _ _
          · exact hk2 p hp
        · rw [List.zip_cons_cons, List.map_cons, List.flatten_cons, hk3]
          rcases le_or_lt m (min (chunkEndIndex text cs s) text.length) with hmM | hmM
          · have hk0 : min (m - s) ((text.drop s).take (chunkEndIndex text cs s - s)).length =
                m - s := by omega
            rw [hk0]
            have hdrop1 : ((text.drop s).take (chunkEndIndex text cs s - s)).drop (m - s) =
                (text.drop m).take (chunkEndIndex text cs s - m) := by
              rw [List.drop_take, List.drop_drop]
              congr 1
              · omega
              · congr 1
                omega
            have hmax : max m (min (chunkEndIndex text cs s) text.length) =
                min (chunkEndIndex text cs s) text.length := by omega
            have hdM : (text.drop m).drop (chunkEndIndex text cs s - m) =
                text.drop (min (chunkEndIndex text cs s) text.length) := by
              rw [List.drop_drop]
              rcases le_or_lt (chunkEndIndex text cs s) text.length with hel | hel
              · congr 1
                omega
              · rw [List.drop_eq_nil_of_le (by omega), List.drop_eq_nil_of_le (by omega)]
            rw [hdrop1, hmax, ← hdM, List.take_append_drop]
          · have hk0 : min (m - s) ((text.drop s).take (chunkEndIndex text cs s - s)).length =
                ((text.drop s).take (chunkEndIndex text cs s - s)).length := by omega
            have hmax : max m (min (chunkEndIndex text cs s) text.length) = m := by omega
            rw [hk0, List.drop_length, hmax, List.nil_append]
      · cases n with
        | zero => cases hrec
        | succ n2 =>
          rw [chunkLoop, if_neg hlt] at hrec
          injection hrec with hrec
          subst hrec
          have hel : text.length ≤ chunkEndIndex text cs s := by omega
          have hcall : (text.drop s).take (chunkEndIndex text cs s - s) = text.drop s :=
            List.take_of_length_le (by rw [List.length_drop]; omega)
          refine ⟨[min (m - s) ((text.drop s).take (chunkEndIndex text cs s - s)).length],
            rfl, ?_, ?_, rfl⟩
          · intro p hp
            rcases List.mem_singleton.mp hp with rfl
            exact min_le_right _ _
          · have hk0 : min (m - s) ((text.drop s).take (chunkEndIndex text cs s - s)).length =
                m - s := by omega
            rw [hk0]
            simp only [List.zip_cons_cons, List.zip_nil_right, List.map_cons, List.map_nil,
              List.flatten_cons, List.flatten_nil, List.append_nil]
            rw [hcall, List.drop_drop]
            congr 1
            omega

/-- Claim C5 as stated is FALSE: `splitTextIntoChunks` does not return a
sequence for every input, because the loop can cycle. Concrete
counterexample: on 21 non-break characters with `chunkSize = 5` and
`overlap = 10` the loop revisits start index 5 forever, so no fuel bound
ever produces a chunk sequence to concatenate. -/
theorem c5_counterexample :
    ¬ ∃ fuel chunks, splitTextIntoChunksFuel fuel (List.replicate 21 'b') 5 10 = some chunks := by
  rintro ⟨fuel, chunks, h⟩
  have hdiv := splitDiverges_of_cycle (List.replicate 21 'b') 5 10 5 10 (by decide)
    (by decide) (by decide) (by decide) (by decide) (by decide)
  rw [hdiv fuel] at h
  cases h

/-- Claim C5 amended: for every input and parameters on which
`splitTextIntoChunks` terminates, the returned sequence is a finite list and
there are overlap amounts — 0 for the first chunk, each at most the length
of the chunk — whose removal from the front of every later chunk makes the
concatenation reconstruct the original text exactly. (A removal amount may
consume a whole chunk: in pathological terminating runs a later chunk can
lie entirely inside text already covered by its predecessors.) -/
theorem c5_theorem (fuel : Nat) (text : List Char) (cs ov : Nat) (chunks : List (List Char))
    (h : splitTextIntoChunksFuel fuel text cs ov = some chunks) :
    ∃ ks : List Nat, ks.length = chunks.length ∧ ks.head? = some 0 ∧
      (∀ p ∈ ks.zip chunks, p.1 ≤ p.2.length) ∧
      ((ks.zip chunks).map (fun p => p.2.drop p.1)).flatten = text := by
  unfold splitTextIntoChunksFuel at h
  by_cases hlen : text.length ≤ cs
  · rw [if_pos hlen] at h
    injection h with h
    subst h
    exact ⟨[0], rfl, rfl, by rintro p hp; rcases List.mem_singleton.mp hp with rfl; simp, by simp⟩
  · rw [if_neg hlen] at h
    have h0 : 0 < text.length := by omega
    obtain ⟨ks, hk1, hk2, hk3, hk4⟩ :=
      chunkLoop_reconstruct text cs ov fuel 0 0 chunks h h0 le_rfl (by omega)
    cases chunks with
    | nil =>
      rw [List.zip_nil_right] at hk3
      simp only [List.map_nil, List.flatten_nil] at hk3
      rw [List.drop_zero] at hk3
      rw [← hk3] at h0
      cases h0
    | cons c rest =>
      refine ⟨ks, hk1, ?_, hk2, by rw [hk3, List.drop_zero]⟩
      rw [hk4]
      simp

/-- Witness for the amended C5: the chunking of `"abcdefgh"` with size 3 and
overlap 1 terminates and its chunks reconstruct the text after dropping the
overlap amounts. -/
theorem c5_witness :
    splitTextIntoChunksFuel 10 ("abcdefgh".toList) 3 1 =
      some ["abc".toList, "cde".toList, "efg".toList, "gh".toList] ∧
    ∃ ks : List Nat,
      ks.length = (["abc".toList, "cde".toList, "efg".toList, "gh".toList]).length ∧
      ks.head? = some 0 ∧
      (∀ p ∈ ks.zip ["abc".toList, "cde".toList, "efg".toList, "gh".toList], p.1 ≤ p.2.length) ∧
      ((ks.zip ["abc".toList, "cde".toList, "efg".toList, "gh".toList]).map
        (fun p => p.2.drop p.1)).flatten = "abcdefgh".toList :=
  ⟨by decide,
    c5_theorem 10 ("abcdefgh".toList) 3 1 ["abc".toList, "cde".toList, "efg".toList, "gh".toList]
      (by decide)⟩

/-! ### Claim C7 -/

lemma filter_orderedInsert_simGE_eq (v : ℚ) (x : RankedItem) (hx : x.similarity = v) :
    ∀ l : List RankedItem,
      (l.orderedInsert simGE x).filter (fun r => decide (r.similarity = v)) =
        x :: l.filter (fun r => decide (r.similarity = v))
  | [] => by simp [hx]
  | b :: l => by
    rw [List.orderedInsert]
    by_cases hbx : simGE x b
    · rw [if_pos hbx]
      simp [hx]
    · rw [if_neg hbx]
      have hbv : ¬ (b.similarity = v) := by
        unfold simGE at hbx
        intro hb
        exact hbx (by rw [hb, hx])
      rw [List.filter_cons, List.filter_cons, filter_orderedInsert_simGE_eq v x hx l]
      simp [hbv]

lemma filter_orderedInsert_simGE_ne (v : ℚ) (x : RankedItem) (hx : ¬ x.similarity = v) :
    ∀ l : List RankedItem,
      (l.orderedInsert simGE x).filter (fun r => decide (r.similarity = v)) =
        l.filter (fun r => decide (r.similarity = v))
  | [] => by simp [hx]
  | b :: l => by
    rw [List.orderedInsert]
    by_cases hbx : simGE x b
    · rw [if_pos hbx]
      simp [hx]
    · rw [if_neg hbx]
      rw [List.filter_cons, List.filter_cons, filter_orderedInsert_simGE_ne v x hx l]

/-- Stability of the modelled sort: within each similarity class the sorted
output lists the records in their original order. -/
lemma filter_insertionSort_simGE (v : ℚ) :
    ∀ l : List RankedItem,
      (List.insertionSort simGE l).filter (fun r => decide (r.similarity = v)) =
        l.filter (fun r => decide (r.similarity = v))
  | [] => rfl
  | x :: l => by
    rw [List.insertionSort]
    by_cases hx : x.similarity = v
    · rw [filter_orderedInsert_simGE_eq v x hx, filter_insertionSort_simGE v l,
        List.filter_cons]
      simp [hx]
    · rw [filter_orderedInsert_simGE_ne v x hx, filter_insertionSort_simGE v l,
        List.filter_cons]
      simp [hx]

lemma computeSims_ok_of_matching (msqrt : ℚ → ℚ) (q : List ℚ) :
    ∀ l : List ContextItem, (∀ it ∈ l, (it.embedding.getD []).length = q.length) →
      computeSims msqrt q l =
        Except.ok (l.map (fun it => ⟨it, simVal msqrt q (it.embedding.getD [])⟩)) := by
  intro l
  induction l with
  | nil => intro _; rfl
  | cons a l ih =>
    intro hmatch
    unfold computeSims
    rw [cosineSimilarity_ok_of_length_eq msqrt q (a.embedding.getD [])
      ((hmatch a (List.mem_cons_self a l)).symm)]
    rw [ih (fun it hit => hmatch it (List.mem_cons_of_mem a hit))]
    rfl

/-- Claim C7 as stated is FALSE: it quantifies over every store, but a store
holding a qualifying record of the wrong dimensionality makes the whole call
raise instead of returning the remaining qualifying records. Concrete
counterexample: two records, one of matching and one of mismatched
dimensionality — fewer qualifying records than the limit, yet the call
errors rather than returning them. -/
theorem c7_counterexample :
    findSimilarContexts (fun x => x) (some [itemOfEmb [5], itemOfEmb [1, 2]]) [2] 3 =
      Except.error "Vectors must have the same length" := by
  have h : computeSims (fun x : ℚ => x) [2] ([itemOfEmb [5], itemOfEmb [1, 2]].filter qualifies) =
      Except.error "Vectors must have the same length" := by
    apply computeSims_error_of_mismatch
    exact ⟨itemOfEmb [1, 2], by decide, by decide⟩
  simp only [findSimilarContexts, h]
  rfl

/-- Claim C7 amended: provided the embedding of every qualifying record has
the dimensionality of the query and the limit is non-negative, `findSimilarContexts`
returns (an empty sequence on an absent or empty store, never an error, and
otherwise) exactly `min limit (#qualifying)` records, sorted by similarity
in descending order with ties kept in original store order (each similarity
class of the output is a prefix of that class in store order), and all
qualifying records when fewer than `limit` exist. Determinism holds because
the model is a pure function of the store and query. -/
theorem c7_theorem (msqrt : ℚ → ℚ) (store : List ContextItem) (q : List ℚ) (limit : Int)
    (hdim : ∀ it ∈ store.filter qualifies, (it.embedding.getD []).length = q.length)
    (hlim : 0 ≤ limit) :
    (∀ q2 : List ℚ, ∀ lim2 : Int, findSimilarContexts msqrt none q2 lim2 = Except.ok [] ∧
      findSimilarContexts msqrt (some []) q2 lim2 = Except.ok []) ∧
    ∃ out, findSimilarContexts msqrt (some store) q limit = Except.ok out ∧
      out.length = min limit.toNat (store.filter qualifies).length ∧
      List.Sorted simGE out ∧
      (∀ v : ℚ, (out.filter (fun r => decide (r.similarity = v))) <+:
        ((rankedOf msqrt store q).filter (fun r => decide (r.similarity = v)))) ∧
      ((store.filter qualifies).length ≤ limit.toNat → out.Perm (rankedOf msqrt store q)) := by
  refine ⟨fun q2 lim2 => ⟨rfl, rfl⟩, ?_⟩
  cases store with
  | nil =>
    refine ⟨[], rfl, by simp [qualifies, rankedOf], List.sorted_nil, ?_, ?_⟩
    · intro v
      simp [rankedOf]
    · intro _
      simp [rankedOf]
  | cons a0 rest0 =>
    have hOk := computeSims_ok_of_matching msqrt q ((a0 :: rest0).filter qualifies) hdim
    have hlenSort : (List.insertionSort simGE (rankedOf msqrt (a0 :: rest0) q)).length =
        ((a0 :: rest0).filter qualifies).length := by
      rw [(List.perm_insertionSort simGE (rankedOf msqrt (a0 :: rest0) q)).length_eq]
      unfold rankedOf
      rw [List.length_map]
    refine ⟨jsSliceTo (List.insertionSort simGE (rankedOf msqrt (a0 :: rest0) q)) limit,
      ?_, ?_, ?_, ?_, ?_⟩
    · simp only [findSimilarContexts, hOk]
      rfl
    · unfold jsSliceTo
      rw [if_neg (by omega), List.length_take, hlenSort]
    · unfold jsSliceTo
      rw [if_neg (by omega)]
      exact (List.sorted_insertionSort simGE (rankedOf msqrt (a0 :: rest0) q)).sublist
        (List.take_sublist _ _)
    · intro v
      unfold jsSliceTo
      rw [if_neg (by omega)]
      have hpre : (List.insertionSort simGE (rankedOf msqrt (a0 :: rest0) q)).take limit.toNat <+:
          List.insertionSort simGE (rankedOf msqrt (a0 :: rest0) q) :=
        List.take_prefix _ _
      have := hpre.filter (fun r => decide (r.similarity = v))
      rwa [filter_insertionSort_simGE v (rankedOf msqrt (a0 :: rest0) q)] at this
    · intro hfew
      unfold jsSliceTo
      rw [if_neg (by omega), List.take_of_length_le (by omega)]
      exact List.perm_insertionSort simGE (rankedOf msqrt (a0 :: rest0) q)

/-- Witness for the amended C7 on a concrete two-record store. -/
theorem c7_witness :
    (∀ it ∈ [itemOfEmb [2], itemOfEmb [3]].filter qualifies,
      (it.embedding.getD []).length = ([1] : List ℚ).length) ∧ (0 : Int) ≤ 3 ∧
    ((∀ q2 : List ℚ, ∀ lim2 : Int,
      findSimilarContexts (fun x => x) none q2 lim2 = Except.ok [] ∧
      findSimilarContexts (fun x => x) (some []) q2 lim2 = Except.ok []) ∧
    ∃ out, findSimilarContexts (fun x => x) (some [itemOfEmb [2], itemOfEmb [3]]) [1] 3 =
        Except.ok out ∧
      out.length = min (3 : Int).toNat ([itemOfEmb [2], itemOfEmb [3]].filter qualifies).length ∧
      List.Sorted simGE out ∧
      (∀ v : ℚ, (out.filter (fun r => decide (r.similarity = v))) <+:
        ((rankedOf (fun x => x) [itemOfEmb [2], itemOfEmb [3]] [1]).filter
          (fun r => decide (r.similarity = v)))) ∧
      (([itemOfEmb [2], itemOfEmb [3]].filter qualifies).length ≤ (3 : Int).toNat →
        out.Perm (rankedOf (fun x => x) [itemOfEmb [2], itemOfEmb [3]] [1]))) :=
  ⟨by decide, by decide,
    c7_theorem (fun x => x) [itemOfEmb [2], itemOfEmb [3]] [1] 3 (by decide) (by decide)⟩

/-! ### Claim C10 -/

/-- Claim C10: `findSimilarContexts` never validates its `limit` argument.
With `limit = 0` the `slice(0, 0)` returns the empty sequence; with a
negative `limit = L` the `slice(0, L)` returns the sorted qualifying records
except the final `|L|` of them (clamped at zero), never an error and not
always an empty result. Stated for stores whose qualifying records match the
dimensionality of the query (a mismatched store raises for every limit, see the
C1 analysis). -/
theorem c10_theorem (msqrt : ℚ → ℚ) (store : List ContextItem) (q : List ℚ)
    (hdim : ∀ it ∈ store.filter qualifies, (it.embedding.getD []).length = q.length) :
    findSimilarContexts msqrt (some store) q 0 = Except.ok [] ∧
    ∀ L : Int, L < 0 → ∃ out, findSimilarContexts msqrt (some store) q L = Except.ok out ∧
      out.length = (store.filter qualifies).length - (-L).toNat ∧
      out <+: List.insertionSort simGE (rankedOf msqrt store q) := by
  cases store with
  | nil =>
    refine ⟨rfl, fun L hL => ⟨[], rfl, by simp [qualifies], ?_⟩⟩
    simp [rankedOf]
  | cons a0 rest0 =>
    have hOk := computeSims_ok_of_matching msqrt q ((a0 :: rest0).filter qualifies) hdim
    have hlenSort : (List.insertionSort simGE (rankedOf msqrt (a0 :: rest0) q)).length =
        ((a0 :: rest0).filter qualifies).length := by
      rw [(List.perm_insertionSort simGE (rankedOf msqrt (a0 :: rest0) q)).length_eq]
      unfold rankedOf
      rw [List.length_map]
    constructor
    · simp only [findSimilarContexts, hOk]
      rfl
    · intro L hL
      refine ⟨jsSliceTo (List.insertionSort simGE (rankedOf msqrt (a0 :: rest0) q)) L,
        ?_, ?_, ?_⟩
      · simp only [findSimilarContexts, hOk]
        rfl
      · unfold jsSliceTo
        rw [if_pos (by omega), List.length_take, hlenSort]
        omega
      · unfold jsSliceTo
        rw [if_pos (by omega)]
        exact List.take_prefix _ _

/-- Witness for C10 on a concrete three-record store with `L = -1`. -/
theorem c10_witness :
    (∀ it ∈ [itemOfEmb [2], itemOfEmb [3], itemOfEmb [4]].filter qualifies,
      (it.embedding.getD []).length = ([1] : List ℚ).length) ∧
    (findSimilarContexts (fun x => x) (some [itemOfEmb [2], itemOfEmb [3], itemOfEmb [4]]) [1] 0 =
        Except.ok [] ∧
      ∀ L : Int, L < 0 → ∃ out,
        findSimilarContexts (fun x => x) (some [itemOfEmb [2], itemOfEmb [3], itemOfEmb [4]]) [1] L =
          Except.ok out ∧
        out.length =
          ([itemOfEmb [2], itemOfEmb [3], itemOfEmb [4]].filter qualifies).length - (-L).toNat ∧
        out <+: List.insertionSort simGE
          (rankedOf (fun x => x) [itemOfEmb [2], itemOfEmb [3], itemOfEmb [4]] [1])) :=
  ⟨by decide,
    c10_theorem (fun x => x) [itemOfEmb [2], itemOfEmb [3], itemOfEmb [4]] [1] (by decide)⟩

/-! ### Claim C4 -/

/-- Whether an embedding call succeeded. -/
def isOkE {ε α : Type} : Except ε α → Bool
  | Except.ok _ => true
  | Except.error _ => false


lemma embedChunksAux_cons_ok (embed : Nat → List Char → Except String (List ℚ))
    (mkId : Nat → String) (now src : String) (urlOpt pathOpt : Option String)
    (nChunks : Nat) (baseTitle : String) (idx : Nat) (c : List Char) (cs : List (List Char))
    (emb : List ℚ) (hemb : embed idx c = Except.ok emb) :
    embedChunksAux embed mkId now src urlOpt pathOpt nChunks baseTitle idx (c :: cs) =
      (⟨idx, some (if nChunks > 1 then createChunkTitle c idx baseTitle else baseTitle), none,
          c.length, estimateTokenCount c⟩ ::
        (embedChunksAux embed mkId now src urlOpt pathOpt nChunks baseTitle (idx + 1) cs).1,
       ⟨mkId idx, src, c, some (if nChunks > 1 then createChunkTitle c idx baseTitle else baseTitle),
          urlOpt, pathOpt, some emb, now⟩ ::
        (embedChunksAux embed mkId now src urlOpt pathOpt nChunks baseTitle (idx + 1) cs).2) := by
  simp only [embedChunksAux, processChunk, hemb]

lemma embedChunksAux_cons_error (embed : Nat → List Char → Except String (List ℚ))
    (mkId : Nat → String) (now src : String) (urlOpt pathOpt : Option String)
    (nChunks : Nat) (baseTitle : String) (idx : Nat) (c : List Char) (cs : List (List Char))
    (msg : String) (hemb : embed idx c = Except.error msg) :
    embedChunksAux embed mkId now src urlOpt pathOpt nChunks baseTitle idx (c :: cs) =
      (⟨idx, none, some msg, c.length, estimateTokenCount c⟩ ::
        (embedChunksAux embed mkId now src urlOpt pathOpt nChunks baseTitle (idx + 1) cs).1,
       (embedChunksAux embed mkId now src urlOpt pathOpt nChunks baseTitle (idx + 1) cs).2) := by
  simp only [embedChunksAux, processChunk, hemb]

@[simp] lemma jsFalsyOptStr_none : jsFalsyOptStr none = true := rfl

@[simp] lemma jsFalsyOptStr_some (s : String) : jsFalsyOptStr (some s) = decide (s = "") := rfl

@[simp] lemma isOkE_ok {e a : Type} (x : a) : isOkE (Except.ok x : Except e a) = true := rfl

@[simp] lemma isOkE_error {e a : Type} (x : e) : isOkE (Except.error x : Except e a) = false := rfl

lemma embedChunksAux_spec (embed : Nat → List Char → Except String (List ℚ))
    (mkId : Nat → String) (now src : String) (urlOpt pathOpt : Option String)
    (nChunks : Nat) (baseTitle : String) :
    ∀ chunks idx,
      (∀ p ∈ List.enumFrom idx chunks, ∀ msg, embed p.1 p.2 = Except.error msg → msg ≠ "") →
      (embedChunksAux embed mkId now src urlOpt pathOpt nChunks baseTitle idx chunks).1.length =
        chunks.length ∧
      ((embedChunksAux embed mkId now src urlOpt pathOpt nChunks baseTitle idx chunks).1.filter
        (fun r => jsFalsyOptStr r.error)).length =
        ((List.enumFrom idx chunks).filter (fun p => isOkE (embed p.1 p.2))).length ∧
      ((embedChunksAux embed mkId now src urlOpt pathOpt nChunks baseTitle idx chunks).1.filter
        (fun r => !jsFalsyOptStr r.error)).length =
        ((List.enumFrom idx chunks).filter (fun p => !isOkE (embed p.1 p.2))).length ∧
      (∀ r ∈ (embedChunksAux embed mkId now src urlOpt pathOpt nChunks baseTitle idx chunks).1,
        r.error ≠ none → ∃ p ∈ List.enumFrom idx chunks, p.1 = r.chunkIndex ∧
          embed p.1 p.2 = Except.error (r.error.getD "")) ∧
      (embedChunksAux embed mkId now src urlOpt pathOpt nChunks baseTitle idx chunks).2.map
        (fun it => it.content) =
        ((List.enumFrom idx chunks).filter (fun p => isOkE (embed p.1 p.2))).map
          (fun p => p.2) := by
  intro chunks
  induction chunks with
  | nil =>
    intro idx _
    refine ⟨rfl, rfl, rfl, ?_, rfl⟩
    intro r hr
    simp [embedChunksAux] at hr
  | cons c cs ih =>
    intro idx hmsg
    obtain ⟨h1, h2, h3, h4, h5⟩ := ih (idx + 1) (fun p hp msg hmsgp =>
      hmsg p (by rw [List.enumFrom_cons]; exact List.mem_cons_of_mem _ hp) msg hmsgp)
    rw [List.enumFrom_cons]
    cases hemb : embed idx c with
    | ok emb =>
      rw [embedChunksAux_cons_ok embed mkId now src urlOpt pathOpt nChunks baseTitle idx c cs
        emb hemb]
      refine ⟨by simp [h1], ?_, ?_, ?_, ?_⟩
      · simp [List.filter_cons, hemb, h2]
      · simp [List.filter_cons, hemb, h3]
      · intro r hr hrerr
        rcases List.mem_cons.mp hr with hr | hr
        · exact absurd (by rw [hr]) hrerr
        · obtain ⟨p, hp, hpe⟩ := h4 r hr hrerr
          exact ⟨p, List.mem_cons_of_mem _ hp, hpe⟩
      · simp [List.filter_cons, hemb, h5]
    | error msg =>
      have hmne : msg ≠ "" := hmsg (idx, c)
        (by rw [List.enumFrom_cons]; exact List.mem_cons_self _ _) msg (by rw [hemb])
      rw [embedChunksAux_cons_error embed mkId now src urlOpt pathOpt nChunks baseTitle idx c cs
        msg hemb]
      refine ⟨by simp [h1], ?_, ?_, ?_, ?_⟩
      · simp [List.filter_cons, hemb, hmne, h2]
      · simp [List.filter_cons, hemb, hmne, h3]
      · intro r hr hrerr
        rcases List.mem_cons.mp hr with hr | hr
        · subst hr
          exact ⟨(idx, c), List.mem_cons_self _ _, rfl, by rw [hemb]; rfl⟩
        · obtain ⟨p, hp, hpe⟩ := h4 r hr hrerr
          exact ⟨p, List.mem_cons_of_mem _ hp, hpe⟩
      · simp [List.filter_cons, hemb, h5]

/-- Claim C4 amended: per-chunk embedding failures are isolated — sibling
chunks are still processed, the chunk-result list has one entry per chunk,
`successfulChunks = N - K` and `failedChunks = K` where `K` is the number of
failing embedding calls, every failed entry records its chunk index and
error message, and exactly the `N - K` successfully embedded chunks become
context items (both routes append exactly these to the store, see
`processUploadContent` / `processUrlContent`) — PROVIDED every failure has
a non-empty message. (The filter `!chunk.error` misclassifies an
empty-string message as a success, see the counterexample.) -/
theorem c4_theorem (embed : Nat → List Char → Except String (List ℚ))
    (mkId : Nat → String) (now src : String) (urlOpt pathOpt : Option String)
    (baseTitle : String) (chunks : List (List Char))
    (hmsg : ∀ p ∈ chunks.enum, ∀ msg, embed p.1 p.2 = Except.error msg → msg ≠ "") :
    (embedChunks embed mkId now src urlOpt pathOpt baseTitle chunks).1.length = chunks.length ∧
    ((embedChunks embed mkId now src urlOpt pathOpt baseTitle chunks).1.filter
      (fun r => jsFalsyOptStr r.error)).length =
      chunks.length - ((chunks.enum).filter (fun p => !isOkE (embed p.1 p.2))).length ∧
    ((embedChunks embed mkId now src urlOpt pathOpt baseTitle chunks).1.filter
      (fun r => !jsFalsyOptStr r.error)).length =
      ((chunks.enum).filter (fun p => !isOkE (embed p.1 p.2))).length ∧
    (∀ r ∈ (embedChunks embed mkId now src urlOpt pathOpt baseTitle chunks).1,
      r.error ≠ none → ∃ p ∈ chunks.enum, p.1 = r.chunkIndex ∧
        embed p.1 p.2 = Except.error (r.error.getD "")) ∧
    (embedChunks embed mkId now src urlOpt pathOpt baseTitle chunks).2.length =
      chunks.length - ((chunks.enum).filter (fun p => !isOkE (embed p.1 p.2))).length ∧
    (embedChunks embed mkId now src urlOpt pathOpt baseTitle chunks).2.map
      (fun it => it.content) =
      ((chunks.enum).filter (fun p => isOkE (embed p.1 p.2))).map (fun p => p.2) := by
  obtain ⟨h1, h2, h3, h4, h5⟩ :=
    embedChunksAux_spec embed mkId now src urlOpt pathOpt chunks.length baseTitle chunks 0 hmsg
  have henum : List.enumFrom 0 chunks = chunks.enum := rfl
  rw [henum] at h2 h3 h4 h5
  have hsum : chunks.enum.length =
      ((chunks.enum).filter (fun p => isOkE (embed p.1 p.2))).length +
      ((chunks.enum).filter (fun p => !isOkE (embed p.1 p.2))).length := by
    simpa using @List.length_eq_length_filter_add _ chunks.enum
      (fun p => isOkE (embed p.1 p.2))
  have hlen : chunks.enum.length = chunks.length := List.enum_length
  have hitems : (embedChunksAux embed mkId now src urlOpt pathOpt chunks.length baseTitle
        0 chunks).2.length =
      ((chunks.enum).filter (fun p => isOkE (embed p.1 p.2))).length := by
    have := congrArg List.length h5
    rwa [List.length_map, List.length_map] at this
  simp only [embedChunks]
  exact ⟨h1, by omega, h3, h4, by omega, h5⟩

/-- Witness for the amended C4: three chunks, the embedding call failing for
chunk index 1 with a non-empty message. -/
theorem c4_witness :
    (∀ p ∈ ([['a'], ['b'], ['c']] : List (List Char)).enum, ∀ msg,
      (fun i (_ : List Char) => if i = 1 then Except.error "boom" else Except.ok [(1 : ℚ)]) p.1 p.2 =
        Except.error msg → msg ≠ "") ∧
    ((embedChunks (fun i _ => if i = 1 then Except.error "boom" else Except.ok [(1 : ℚ)])
        (fun _ => "idW") "nowW" "file" none (some "p") "f" [['a'], ['b'], ['c']]).1.length = 3 ∧
      ((embedChunks (fun i _ => if i = 1 then Except.error "boom" else Except.ok [(1 : ℚ)])
        (fun _ => "idW") "nowW" "file" none (some "p") "f" [['a'], ['b'], ['c']]).1.filter
        (fun r => jsFalsyOptStr r.error)).length = 3 -
        ((([['a'], ['b'], ['c']] : List (List Char)).enum).filter
          (fun p => !isOkE (if p.1 = 1 then Except.error "boom" else Except.ok [(1 : ℚ)]))).length ∧
      ((embedChunks (fun i _ => if i = 1 then Except.error "boom" else Except.ok [(1 : ℚ)])
        (fun _ => "idW") "nowW" "file" none (some "p") "f" [['a'], ['b'], ['c']]).1.filter
        (fun r => !jsFalsyOptStr r.error)).length =
        ((([['a'], ['b'], ['c']] : List (List Char)).enum).filter
          (fun p => !isOkE (if p.1 = 1 then Except.error "boom" else Except.ok [(1 : ℚ)]))).length ∧
      (∀ r ∈ (embedChunks (fun i _ => if i = 1 then Except.error "boom" else Except.ok [(1 : ℚ)])
          (fun _ => "idW") "nowW" "file" none (some "p") "f" [['a'], ['b'], ['c']]).1,
        r.error ≠ none → ∃ p ∈ ([['a'], ['b'], ['c']] : List (List Char)).enum,
          p.1 = r.chunkIndex ∧
          (if p.1 = 1 then Except.error "boom" else Except.ok [(1 : ℚ)]) =
            Except.error (r.error.getD "")) ∧
      (embedChunks (fun i _ => if i = 1 then Except.error "boom" else Except.ok [(1 : ℚ)])
        (fun _ => "idW") "nowW" "file" none (some "p") "f" [['a'], ['b'], ['c']]).2.length = 3 -
        ((([['a'], ['b'], ['c']] : List (List Char)).enum).filter
          (fun p => !isOkE (if p.1 = 1 then Except.error "boom" else Except.ok [(1 : ℚ)]))).length ∧
      (embedChunks (fun i _ => if i = 1 then Except.error "boom" else Except.ok [(1 : ℚ)])
        (fun _ => "idW") "nowW" "file" none (some "p") "f" [['a'], ['b'], ['c']]).2.map
        (fun it => it.content) =
        ((([['a'], ['b'], ['c']] : List (List Char)).enum).filter
          (fun p => isOkE (if p.1 = 1 then Except.error "boom" else Except.ok [(1 : ℚ)]))).map
          (fun p => p.2)) :=
  ⟨by intro p hp msg hm
      fin_cases hp <;> simp_all
      intro h
      rw [h] at hm
      exact absurd hm (by decide),
    c4_theorem (fun i _ => if i = 1 then Except.error "boom" else Except.ok [(1 : ℚ)])
      (fun _ => "idW") "nowW" "file" none (some "p") "f" [['a'], ['b'], ['c']]
      (by intro p hp msg hm
          fin_cases hp <;> simp_all
          intro h
          rw [h] at hm
          exact absurd hm (by decide))⟩

/-- Claim C4 as stated is FALSE in one corner: when the message of the
embedding failure is the empty string, the `!chunk.error` filter counts the failed
chunk as successful. With 3 chunks and the call failing for index 1 with
message `""`, the report shows successfulChunks = 3 and failedChunks = 0
instead of 2 and 1 — although only 2 records are appended. -/
theorem c4_counterexample :
    ((embedChunks (fun i _ => if i = 1 then Except.error "" else Except.ok [(1 : ℚ)])
      (fun _ => "idC") "nowC" "file" none (some "p") "f" [['a'], ['b'], ['c']]).1.filter
      (fun r => jsFalsyOptStr r.error)).length = 3 ∧
    ((embedChunks (fun i _ => if i = 1 then Except.error "" else Except.ok [(1 : ℚ)])
      (fun _ => "idC") "nowC" "file" none (some "p") "f" [['a'], ['b'], ['c']]).1.filter
      (fun r => !jsFalsyOptStr r.error)).length = 0 ∧
    (embedChunks (fun i _ => if i = 1 then Except.error "" else Except.ok [(1 : ℚ)])
      (fun _ => "idC") "nowC" "file" none (some "p") "f" [['a'], ['b'], ['c']]).2.length = 2 ∧
    ((([['a'], ['b'], ['c']] : List (List Char)).enum).filter
      (fun p => !isOkE (if p.1 = 1 then Except.error "" else Except.ok [(1 : ℚ)]))).length = 1 := by
  refine ⟨by decide, by decide, by decide, by decide⟩
